import Mathlib

/-!
Verification of the cache-backed retrieval pipeline of bot.py.

The embedding models the cache directory as a list of files with their stat
metadata (name, size in bytes, st_mtime), the aggregate statistics as a record
of counters, and the external downloader invocation as an abstract outcome
(success with a produced size, timeout, or failed status). Python exceptions
are modelled with explicit control flow; the try/except placement of the
source functions is preserved.
-/

namespace Bot

/-- MAX_FILE_SIZE = 50 * 1024 * 1024 (Telegram per-file ceiling). -/
def MAX_FILE_SIZE : Nat := 50 * 1024 * 1024

/-- MAX_CACHE_SIZE_GB = 1. -/
def MAX_CACHE_SIZE_GB : Nat := 1

/-- max_size_bytes = MAX_CACHE_SIZE_GB * 1024**3, as computed in clean_cache_by_size. -/
def maxCacheSizeBytes : Nat := MAX_CACHE_SIZE_GB * 1024 ^ 3

/-- CACHE_EXPIRE_DAYS = 3. -/
def CACHE_EXPIRE_DAYS : Nat := 3

/-- One file of the cache directory with its stat metadata. -/
structure Entry where
  name : String
  size : Nat
  mtime : Nat
deriving DecidableEq

/-- Aggregate size of a set of cache files, as summed in clean_cache_by_size. -/
def totalSize (es : List Entry) : Nat := (es.map Entry.size).sum

/-- Ordering key of clean_cache_by_size: f.stat().st_mtime. -/
def entryLE (a b : Entry) : Prop := a.mtime ≤ b.mtime

instance : DecidableRel entryLE := fun a b => inferInstanceAs (Decidable (a.mtime ≤ b.mtime))

instance : IsTotal Entry entryLE := ⟨fun a b => Nat.le_total a.mtime b.mtime⟩

instance : IsTrans Entry entryLE := ⟨fun _ _ _ hab hbc => Nat.le_trans hab hbc⟩

/-- files = sorted(CACHE_DIR.glob("*"), key=lambda f: f.stat().st_mtime); Python
sorted is a stable sort, modelled by insertion sort on st_mtime. -/
def sortEntries (es : List Entry) : List Entry := es.insertionSort entryLE

/-- Deleting an entry can fail at its stat or unlink call (for instance when a
concurrent run already removed the file); a run of an eviction pass is
parametrised by the set of entries whose deletion raises. -/
def evictLoopF (fails : Entry → Bool) : List Entry → Nat → List Entry
  | [], _ => []
  | e :: rest, total =>
      if total > maxCacheSizeBytes then
        if fails e then e :: rest
        else evictLoopF fails rest (total - e.size)
      else e :: rest

/-- clean_cache_by_size of bot.py: sort by st_mtime, then pop and unlink the
front while the aggregate size exceeds the cap. The try/except wraps the whole
while loop, so the first failing deletion raises out of the loop and ends the
pass (the exception is logged at function level and swallowed there). -/
def clean_cache_by_sizeF (fails : Entry → Bool) (es : List Entry) : List Entry :=
  evictLoopF fails (sortEntries es) (totalSize (sortEntries es))

/-- A run in which no deletion fails. -/
def noFail : Entry → Bool := fun _ => false

/-- clean_cache_by_size in a failure-free run. -/
def clean_cache_by_size (es : List Entry) : List Entry := clean_cache_by_sizeF noFail es

/-- clean_old_files of bot.py: the try/except sits inside the for loop, so a
stat or unlink failure keeps that file and the pass continues with the rest.
ageLimit and now are in the same time unit as mtime. -/
def clean_old_files (fails : Entry → Bool) (ageLimit now : Nat) : List Entry → List Entry
  | [] => []
  | f :: rest =>
      if fails f then f :: clean_old_files fails ageLimit now rest
      else if now - f.mtime > ageLimit then clean_old_files fails ageLimit now rest
      else f :: clean_old_files fails ageLimit now rest

/-- Modelled from the spec: the failure semantics paragraph asks that a deletion
failure during eviction be logged and skipped without aborting the remaining
pass. This variant of the size-eviction loop keeps the failing entry and
continues with the rest; it exists only to be compared with the code's loop. -/
def evictLoopSkip (fails : Entry → Bool) : List Entry → Nat → List Entry
  | [], _ => []
  | e :: rest, total =>
      if total > maxCacheSizeBytes then
        if fails e then e :: evictLoopSkip fails rest total
        else evictLoopSkip fails rest (total - e.size)
      else e :: rest

/-- Modelled from the spec: size eviction with skip-and-continue failure
semantics, the behaviour the spec prescribes. -/
def cleanCacheBySizeSpec (fails : Entry → Bool) (es : List Entry) : List Entry :=
  evictLoopSkip fails (sortEntries es) (totalSize (sortEntries es))

/-! URL classifier: the regex of extract_url, embedded with the search and
backtracking semantics of re.search. -/

def httpLit : List Char := "http".data

def schemeSLit : List Char := "s://".data

def schemeLit : List Char := "://".data

def hostTikShort : List Char := "vm.tiktok.com".data

def hostTikWWW : List Char := "www.tiktok.com".data

def hostInstaReel : List Char := "www.instagram.com/reel".data

def hostYoutuBe : List Char := "youtu.be".data

def hostYtShorts : List Char := "youtube.com/shorts".data

/-- The five host alternatives of the pattern, in pattern order. -/
def hostAlternatives : List (List Char) :=
  [hostTikShort, hostTikWWW, hostInstaReel, hostYoutuBe, hostYtShorts]

/-- Python regex whitespace for the class excluded by the non-space class. -/
def isSpaceChar (c : Char) : Bool :=
  (c == ' ') || (c == '\t') || (c == '\n') || (c == '\r') || (c == '\x0b') || (c == '\x0c')

/-- Consume a literal piece of the pattern. -/
def stripLit : List Char → List Char → Option (List Char)
  | [], cs => some cs
  | _ :: _, [] => none
  | p :: ps, c :: cs => if c = p then stripLit ps cs else none

/-- The scheme piece of the pattern with its optional letter: the engine tries
the branch with the letter first and backtracks to the branch without it. -/
def stripScheme (cs : List Char) : Option (List Char) :=
  match stripLit httpLit cs with
  | none => none
  | some r1 =>
      match stripLit schemeSLit r1 with
      | some r3 => some r3
      | none => stripLit schemeLit r1

/-- Alternation over the host shapes in pattern order; after the host the
pattern requires a nonempty greedy run of non-whitespace. Returns the whole
matched substring (group 0). -/
def tryHosts (orig : List Char) (r : List Char) : List (List Char) → Option (List Char)
  | [] => none
  | h :: hs =>
      match stripLit h r with
      | none => tryHosts orig r hs
      | some r2 =>
          let run := r2.takeWhile (fun c => !(isSpaceChar c))
          if run.isEmpty then tryHosts orig r hs
          else some (orig.take (orig.length - (r2.length - run.length)))

/-- One attempt of the whole pattern anchored at the head of cs. -/
def matchAt (cs : List Char) : Option (List Char) :=
  match stripScheme cs with
  | none => none
  | some r => tryHosts cs r hostAlternatives

/-- re.search: try each start position left to right; the first position where
the pattern matches yields the result. -/
def scanText : List Char → Option (List Char)
  | [] => none
  | c :: rest =>
      match matchAt (c :: rest) with
      | some m => some m
      | none => scanText rest

/-- extract_url of bot.py. -/
def extract_url (text : String) : Option String :=
  (scanText text.data).map String.mk

/-! The retrieval pipeline: stats record, external tool outcomes, and the
handler for one inbound message. -/

/-- The outcome counters of bot_stats that handle_links touches. -/
structure Stats where
  total_requests : Nat
  successful_downloads : Nat
  failed_downloads : Nat
  cache_hits : Nat
deriving DecidableEq

/-- Behaviour of one yt-dlp invocation: it produces a media file of some size,
exceeds the 120 s bound, or exits with a failed status. -/
inductive ToolRun
  | success (size : Nat)
  | timedOut
  | failed
deriving DecidableEq

/-- Terminal outcome of one handled message: each constructor is one reply
branch of handle_links. -/
inductive Outcome
  | noLink
  | sent
  | timeout
  | toolError
  | unexpected
deriving DecidableEq

/-- The two subprocess exceptions download_video can raise. -/
inductive DLExc
  | timeoutExpired
  | calledProcessError
deriving DecidableEq

/-- str(CACHE_DIR). -/
def cacheDirChars : List Char := "video_cache".data

/-- str(CACHE_DIR) with the path separator appended. -/
def cacheDirSlash : List Char := "video_cache/".data

/-- Extension of every cache file name. -/
def mp4Ext : String := ".mp4"

/-- str(CACHE_DIR / f-string of the hash with extension). -/
def cachePathOf (fname : String) : List Char := cacheDirSlash ++ fname.data

/-- Modelled from the spec: get_url_hash calls the md5 hexdigest of an external
hashing library, whose algorithm is outside this repository. The pipeline only
relies on the key being a deterministic function of the url, so the derivation
is modelled as the identity on the url string. -/
def get_url_hash (url : String) : String := url

/-- str.startswith of Python: a prefix test. -/
def startswith (s pre : List Char) : Bool := pre.isPrefixOf s

/-- os.remove of the file at a path, on the model cache state. -/
def removeByPath (cache : List Entry) (p : List Char) : List Entry :=
  cache.filter (fun e => decide (cachePathOf e.name ≠ p))

/-- finally block of handle_links: delete the file at file_path unless the path
starts with str(CACHE_DIR). Returns the cache state and the deleted path. -/
def finallyStep (cache : List Entry) (fp : Option (List Char)) :
    List Entry × Option (List Char) :=
  match fp with
  | none => (cache, none)
  | some p =>
      if startswith p cacheDirChars then (cache, none)
      else (removeByPath cache p, some p)

/-- download_video of bot.py: the size pre-check runs first, then yt-dlp is
invoked with the final content-addressed path as output; on success the file
exists at that path (replacing any file of that name), otherwise the
subprocess call raises. -/
def download_video (cache : List Entry) (url_hash : String) (tool : ToolRun) (now : Nat) :
    List Entry × Except DLExc (List Char) :=
  let cache1 := clean_cache_by_size cache
  let fname := url_hash ++ mp4Ext
  match tool with
  | ToolRun.timedOut => (cache1, Except.error DLExc.timeoutExpired)
  | ToolRun.failed => (cache1, Except.error DLExc.calledProcessError)
  | ToolRun.success size =>
      (cache1.filter (fun e => !(e.name == fname)) ++ [⟨fname, size, now⟩],
       Except.ok (cachePathOf fname))

/-- os.path.getsize of a path, read from the model cache state. -/
def getsize (cache : List Entry) (p : List Char) : Nat :=
  match cache.find? (fun e => cachePathOf e.name == p) with
  | some e => e.size
  | none => 0

/-- Result of handling one message: cache state after the handler, stats after
the handler, reply branch taken, file_path at the end of the try body, path
deleted by the finally guard (if any), and whether the subprocess ran. -/
structure HLResult where
  cache : List Entry
  stats : Stats
  outcome : Outcome
  filePath : Option (List Char)
  finallyRemoved : Option (List Char)
  invokedTool : Bool
deriving DecidableEq

/-- handle_links of bot.py for one message whose relevant text is the given
string; tool is the behaviour of the subprocess if it is invoked and now the
timestamp a newly committed file receives. -/
def handle_links (text : String) (cache : List Entry) (tool : ToolRun) (now : Nat)
    (st : Stats) : HLResult :=
  match extract_url text with
  | none => ⟨cache, st, Outcome.noLink, none, none, false⟩
  | some url =>
    let st1 : Stats := { st with total_requests := st.total_requests + 1 }
    let fname := get_url_hash url ++ mp4Ext
    match cache.find? (fun e => e.name == fname) with
    | some entry =>
        let st2 : Stats := { st1 with cache_hits := st1.cache_hits + 1 }
        let fp := cachePathOf fname
        if entry.size > MAX_FILE_SIZE then
          let st3 : Stats := { st2 with failed_downloads := st2.failed_downloads + 1 }
          let fin := finallyStep cache (some fp)
          ⟨fin.1, st3, Outcome.unexpected, some fp, fin.2, false⟩
        else
          let st3 : Stats := { st2 with successful_downloads := st2.successful_downloads + 1 }
          let fin := finallyStep cache (some fp)
          ⟨fin.1, st3, Outcome.sent, some fp, fin.2, false⟩
    | none =>
        match download_video cache (get_url_hash url) tool now with
        | (c1, Except.error DLExc.timeoutExpired) =>
            let st2 : Stats := { st1 with failed_downloads := st1.failed_downloads + 1 }
            let fin := finallyStep c1 none
            ⟨fin.1, st2, Outcome.timeout, none, fin.2, true⟩
        | (c1, Except.error DLExc.calledProcessError) =>
            let st2 : Stats := { st1 with failed_downloads := st1.failed_downloads + 1 }
            let fin := finallyStep c1 none
            ⟨fin.1, st2, Outcome.toolError, none, fin.2, true⟩
        | (c1, Except.ok fp) =>
            if getsize c1 fp > MAX_FILE_SIZE then
              let st2 : Stats := { st1 with failed_downloads := st1.failed_downloads + 1 }
              let fin := finallyStep c1 (some fp)
              ⟨fin.1, st2, Outcome.unexpected, some fp, fin.2, true⟩
            else
              let st2 : Stats := { st1 with successful_downloads := st1.successful_downloads + 1 }
              let fin := finallyStep c1 (some fp)
              ⟨fin.1, st2, Outcome.sent, some fp, fin.2, true⟩

/-! Concurrency model for requests on one key: each inbound message runs one
coroutine; the cache-existence check and the blocking download are separated by
an await on the reply call, so the scheduler can interleave other coroutines
between them; the subprocess call itself blocks the event loop and is atomic. -/

/-- Shared state: the cache directory and how many times the tool was run. -/
structure CState where
  cache : List Entry
  invocations : Nat
deriving DecidableEq

/-- Control point of one request coroutine for the key: before the cache check,
suspended before download_video, or finished. -/
inductive TPhase
  | start
  | toDownload
  | done (o : Outcome)
deriving DecidableEq

/-- One scheduler step of a request coroutine for the key named fname. -/
def threadStep (fname : String) (size now : Nat) (s : CState) : TPhase → CState × TPhase
  | TPhase.start =>
      if s.cache.any (fun e => e.name == fname) then (s, TPhase.done Outcome.sent)
      else (s, TPhase.toDownload)
  | TPhase.toDownload =>
      (⟨(clean_cache_by_size s.cache).filter (fun e => !(e.name == fname)) ++ [⟨fname, size, now⟩],
        s.invocations + 1⟩, TPhase.done Outcome.sent)
  | TPhase.done o => (s, TPhase.done o)

/-- One scheduler round: every coroutine gets one step, left to right. -/
def runRound (fname : String) (size now : Nat) : CState → List TPhase → CState × List TPhase
  | s, [] => (s, [])
  | s, ph :: rest =>
      let p1 := threadStep fname size now s ph
      let p2 := runRound fname size now p1.1 rest
      (p2.1, p1.2 :: p2.2)

/-! Concrete data used by witnesses and counterexamples. -/

def urlTik : String := "https://vm.tiktok.com/a"

def textNoUrl : String := "hello"

def statsZero : Stats := ⟨0, 0, 0, 0⟩

example : extract_url urlTik = some urlTik := by decide

example : extract_url textNoUrl = none := by decide

example : clean_cache_by_size [⟨mp4Ext, 2 ^ 30, 0⟩, ⟨mp4Ext, 2 ^ 30, 1⟩] =
    [⟨mp4Ext, 2 ^ 30, 1⟩] := by decide

/-! Helper lemmas about the size-eviction loop. -/

theorem totalSize_nil : totalSize [] = 0 := rfl

theorem totalSize_cons (e : Entry) (l : List Entry) :
    totalSize (e :: l) = e.size + totalSize l := by
  simp [totalSize]

theorem totalSize_sortEntries (es : List Entry) :
    totalSize (sortEntries es) = totalSize es :=
  ((List.perm_insertionSort entryLE es).map Entry.size).sum_eq

theorem evictLoopNF_nil (total : Nat) : evictLoopF noFail [] total = [] := rfl

theorem evictLoopNF_cons (e : Entry) (rest : List Entry) (total : Nat) :
    evictLoopF noFail (e :: rest) total =
      if total > maxCacheSizeBytes then evictLoopF noFail rest (total - e.size)
      else e :: rest := by
  simp [evictLoopF, noFail]

/-- Shape of a failure-free size-eviction pass on a list whose tracked total is
its aggregate size: a prefix is removed, the survivors stay at or under the
cap, and every removed entry was removed while the total still exceeded the
cap (the pass stops as soon as the cap is reached). -/
theorem evict_main (l : List Entry) :
    ∃ p, l = p ++ evictLoopF noFail l (totalSize l)
      ∧ totalSize (evictLoopF noFail l (totalSize l)) ≤ maxCacheSizeBytes
      ∧ (∀ i last, p = i ++ [last] →
          last.size + totalSize (evictLoopF noFail l (totalSize l)) > maxCacheSizeBytes)
      ∧ (p = [] → totalSize l ≤ maxCacheSizeBytes) := by
  induction l with
  | nil =>
      refine ⟨[], by simp [evictLoopNF_nil], by simp [evictLoopNF_nil, totalSize_nil], ?_, ?_⟩
      · intro i last h; exact absurd h (by simp)
      · intro _; simp [totalSize_nil]
  | cons e rest ih =>
      obtain ⟨p, hsplit, hle, hlast, hnil⟩ := ih
      by_cases h : totalSize (e :: rest) > maxCacheSizeBytes
      · have hred : evictLoopF noFail (e :: rest) (totalSize (e :: rest)) =
            evictLoopF noFail rest (totalSize rest) := by
          rw [evictLoopNF_cons, if_pos h, totalSize_cons, Nat.add_sub_cancel_left]
        refine ⟨e :: p, ?_, ?_, ?_, ?_⟩
        · rw [hred, List.cons_append, ← hsplit]
        · rw [hred]; exact hle
        · intro i last hi
          rw [hred]
          cases i with
          | nil =>
              simp only [List.nil_append] at hi
              have h1 : e = last := (List.cons_eq_cons.mp hi).1
              have h2 : p = [] := (List.cons_eq_cons.mp hi).2
              have hrest : evictLoopF noFail rest (totalSize rest) = rest := by
                have := hsplit; rw [h2] at this; simpa using this.symm
              rw [hrest, ← h1]
              have : e.size + totalSize rest = totalSize (e :: rest) :=
                (totalSize_cons e rest).symm
              rw [this]; exact h
          | cons a i2 =>
              have h1 : p = i2 ++ [last] := by
                have := hi
                simp only [List.cons_append] at this
                exact (List.cons_eq_cons.mp this).2
              exact hlast i2 last h1
        · intro hcontra; exact absurd hcontra (by simp)
      · have hred : evictLoopF noFail (e :: rest) (totalSize (e :: rest)) = e :: rest := by
          rw [evictLoopNF_cons, if_neg h]
        have hle2 : totalSize (e :: rest) ≤ maxCacheSizeBytes := Nat.le_of_not_lt h
        refine ⟨[], by simp [hred], by rw [hred]; exact hle2, ?_, fun _ => hle2⟩
        intro i last hi; exact absurd hi.symm (by simp)

/-- clean_cache_by_size unfolded to the eviction loop over the sorted list. -/
theorem clean_cache_by_size_def (es : List Entry) :
    clean_cache_by_size es =
      evictLoopF noFail (sortEntries es) (totalSize (sortEntries es)) := rfl

/-- Survivors of a failure-free size-eviction pass are files of the cache. -/
theorem mem_clean_cache_by_size {e : Entry} {es : List Entry}
    (h : e ∈ clean_cache_by_size es) : e ∈ es := by
  rw [clean_cache_by_size_def] at h
  obtain ⟨p, hsplit, -, -, -⟩ := evict_main (sortEntries es)
  have hmem : e ∈ sortEntries es := by
    rw [hsplit]; exact List.mem_append_right p h
  exact (List.perm_insertionSort entryLE es).mem_iff.mp hmem

/-- Claim C2: for every cache state whose aggregate size exceeds the cap, the
size policy removes a nonempty initial segment of the entries in order of the
last-access timestamp kept for them (st_mtime), oldest first; it stops as soon
as the remaining aggregate size is at or under the cap, and a surviving entry
is never older than a removed one. -/
theorem clean_cache_by_size_lru (es : List Entry)
    (h : totalSize es > maxCacheSizeBytes) :
    ∃ removed, sortEntries es = removed ++ clean_cache_by_size es
      ∧ removed ≠ []
      ∧ (∀ x ∈ removed, ∀ y ∈ clean_cache_by_size es, x.mtime ≤ y.mtime)
      ∧ totalSize (clean_cache_by_size es) ≤ maxCacheSizeBytes
      ∧ (∀ i last, removed = i ++ [last] →
          last.size + totalSize (clean_cache_by_size es) > maxCacheSizeBytes) := by
  obtain ⟨p, hsplit, hle, hlast, hnil⟩ := evict_main (sortEntries es)
  rw [← clean_cache_by_size_def] at hsplit hle hlast
  refine ⟨p, hsplit, ?_, ?_, hle, hlast⟩
  · intro hp
    rw [totalSize_sortEntries] at hnil
    exact absurd (hnil hp) (Nat.not_le_of_lt h)
  · have hs : List.Sorted entryLE (sortEntries es) :=
      List.sorted_insertionSort entryLE es
    rw [hsplit] at hs
    exact fun x hx y hy => (List.pairwise_append.mp hs).2.2 x hx y hy

/-- Witness for C2 at a concrete over-cap cache state. -/
theorem clean_cache_by_size_lru_witness :
    totalSize [⟨mp4Ext, 2 ^ 30, 5⟩, ⟨mp4Ext, 2 ^ 30, 1⟩] > maxCacheSizeBytes ∧
    (∃ removed,
      sortEntries [⟨mp4Ext, 2 ^ 30, 5⟩, ⟨mp4Ext, 2 ^ 30, 1⟩] =
          removed ++ clean_cache_by_size [⟨mp4Ext, 2 ^ 30, 5⟩, ⟨mp4Ext, 2 ^ 30, 1⟩]
        ∧ removed ≠ []
        ∧ (∀ x ∈ removed, ∀ y ∈ clean_cache_by_size [⟨mp4Ext, 2 ^ 30, 5⟩, ⟨mp4Ext, 2 ^ 30, 1⟩],
            x.mtime ≤ y.mtime)
        ∧ totalSize (clean_cache_by_size [⟨mp4Ext, 2 ^ 30, 5⟩, ⟨mp4Ext, 2 ^ 30, 1⟩]) ≤
            maxCacheSizeBytes
        ∧ (∀ i last, removed = i ++ [last] →
            last.size +
                totalSize (clean_cache_by_size [⟨mp4Ext, 2 ^ 30, 5⟩, ⟨mp4Ext, 2 ^ 30, 1⟩]) >
              maxCacheSizeBytes)) :=
  ⟨by decide, clean_cache_by_size_lru [⟨mp4Ext, 2 ^ 30, 5⟩, ⟨mp4Ext, 2 ^ 30, 1⟩] (by decide)⟩

/-! Aggregate-size helper lemmas. -/

theorem totalSize_append (a b : List Entry) :
    totalSize (a ++ b) = totalSize a + totalSize b := by
  simp [totalSize]

theorem totalSize_filter_le (p : Entry → Bool) (l : List Entry) :
    totalSize (l.filter p) ≤ totalSize l := by
  induction l with
  | nil => simp [totalSize]
  | cons e rest ih =>
      by_cases h : p e
      · rw [List.filter_cons_of_pos h, totalSize_cons, totalSize_cons]
        exact Nat.add_le_add_left ih e.size
      · rw [List.filter_cons_of_neg h, totalSize_cons]
        exact Nat.le_trans ih (Nat.le_add_left _ _)

/-- After a failure-free size-eviction pass the survivors are at or under the cap. -/
theorem totalSize_clean_le (es : List Entry) :
    totalSize (clean_cache_by_size es) ≤ maxCacheSizeBytes := by
  rw [clean_cache_by_size_def]
  obtain ⟨-, -, hle, -, -⟩ := evict_main (sortEntries es)
  exact hle

def hashA : String := "a"

def nameA : String := "a"

def nameB : String := "b"

/-- Claim C5 counterexample: a single write can itself push the cache over the
cap. With an empty cache the pre-check removes nothing, and committing one
file larger than the cap leaves the aggregate above the cap right after the
write completes. -/
theorem write_can_exceed_cap :
    totalSize (download_video [] hashA (ToolRun.success (2 ^ 30 + 1)) 0).1 >
      maxCacheSizeBytes := by decide

/-- Claim C5 amended: the size pre-check runs immediately before every write
(download_video commits into the pre-checked cache), the pre-existing entries
are at or under the cap at commit time, and after the write completes the
aggregate exceeds the cap by at most the size of the newly committed file;
post-write aggregate at or under the cap itself is not guaranteed. -/
theorem precheck_before_write_bound (es : List Entry) (url_hash : String) (size now : Nat) :
    (download_video es url_hash (ToolRun.success size) now).1 =
        (clean_cache_by_size es).filter (fun e => !(e.name == url_hash ++ mp4Ext)) ++
          [⟨url_hash ++ mp4Ext, size, now⟩]
      ∧ totalSize (clean_cache_by_size es) ≤ maxCacheSizeBytes
      ∧ totalSize (download_video es url_hash (ToolRun.success size) now).1 ≤
          maxCacheSizeBytes + size := by
  refine ⟨rfl, totalSize_clean_le es, ?_⟩
  have h1 : totalSize (download_video es url_hash (ToolRun.success size) now).1 =
      totalSize ((clean_cache_by_size es).filter (fun e => !(e.name == url_hash ++ mp4Ext))) +
        totalSize [⟨url_hash ++ mp4Ext, size, now⟩] := by
    rw [show (download_video es url_hash (ToolRun.success size) now).1 =
        (clean_cache_by_size es).filter (fun e => !(e.name == url_hash ++ mp4Ext)) ++
          [⟨url_hash ++ mp4Ext, size, now⟩] from rfl, totalSize_append]
  rw [h1]
  have h2 : totalSize [(⟨url_hash ++ mp4Ext, size, now⟩ : Entry)] = size := by
    simp [totalSize]
  rw [h2]
  exact Nat.add_le_add_right
    (Nat.le_trans (totalSize_filter_le _ _) (totalSize_clean_le es)) size

/-- A cache state over the cap: one old file of a full gigabyte and one newer
one-byte file. -/
def cacheOverCap : List Entry := [⟨nameA, 2 ^ 30, 0⟩, ⟨nameB, 1, 1⟩]

/-- Claim C3 counterexample: the fetch call runs the size pre-check before the
tool, so a fetch that times out can still change the cache state: from an
over-cap cache the pre-check evicts the oldest file, and the state after the
timed-out call differs from the state before it. -/
theorem timeout_after_precheck_changes_cache :
    (handle_links urlTik cacheOverCap ToolRun.timedOut 7 statsZero).outcome = Outcome.timeout
    ∧ (handle_links urlTik cacheOverCap ToolRun.timedOut 7 statsZero).cache ≠ cacheOverCap := by
  decide

/-- Claim C3 amended: when the external tool exceeds the timeout bound, the
outcome is the timeout failure, no entry is committed for the key (none is
visible under the key's content-addressed name), nothing is deleted by the
request's cleanup, and the cache state equals the result of the size pre-check
on the prior state, which is the state just before the tool invocation. -/
theorem timeout_no_commit_state_eq_precheck (text url : String) (cache : List Entry)
    (now : Nat) (st : Stats)
    (hurl : extract_url text = some url)
    (hmiss : cache.find? (fun e => e.name == get_url_hash url ++ mp4Ext) = none) :
    (handle_links text cache ToolRun.timedOut now st).outcome = Outcome.timeout
    ∧ (handle_links text cache ToolRun.timedOut now st).cache = clean_cache_by_size cache
    ∧ (∀ e ∈ (handle_links text cache ToolRun.timedOut now st).cache,
        e.name ≠ get_url_hash url ++ mp4Ext)
    ∧ (handle_links text cache ToolRun.timedOut now st).filePath = none
    ∧ (handle_links text cache ToolRun.timedOut now st).finallyRemoved = none := by
  have hrun : handle_links text cache ToolRun.timedOut now st =
      ⟨clean_cache_by_size cache,
       { st with total_requests := st.total_requests + 1,
                 failed_downloads := st.failed_downloads + 1 },
       Outcome.timeout, none, none, true⟩ := by
    simp [handle_links, hurl, hmiss, download_video, finallyStep]
  refine ⟨by rw [hrun], by rw [hrun], ?_, by rw [hrun], by rw [hrun]⟩
  intro e he
  rw [hrun] at he
  have hmem : e ∈ cache := mem_clean_cache_by_size he
  have hne := List.find?_eq_none.mp hmiss e hmem
  simpa using hne

/-- Witness for C3 amended at a concrete miss with a timed-out tool. -/
theorem timeout_no_commit_witness :
    (handle_links urlTik cacheOverCap ToolRun.timedOut 7 statsZero).outcome = Outcome.timeout
    ∧ (handle_links urlTik cacheOverCap ToolRun.timedOut 7 statsZero).cache =
        clean_cache_by_size cacheOverCap :=
  ⟨(timeout_no_commit_state_eq_precheck urlTik urlTik cacheOverCap 7 statsZero
      (by decide) (by decide)).1,
   (timeout_no_commit_state_eq_precheck urlTik urlTik cacheOverCap 7 statsZero
      (by decide) (by decide)).2.1⟩

/-! Path helper lemmas. -/

theorem isPrefixOf_append_self (l t : List Char) : l.isPrefixOf (l ++ t) = true := by
  induction l with
  | nil => simp [List.isPrefixOf]
  | cons c cs ih => simp [List.isPrefixOf, ih]

/-- Every content-addressed cache path starts with str(CACHE_DIR). -/
theorem cachePath_startswith (fname : String) :
    startswith (cachePathOf fname) cacheDirChars = true := by
  have h : cacheDirSlash = cacheDirChars ++ [('/' : Char)] := by decide
  rw [startswith, cachePathOf, h, List.append_assoc]
  exact isPrefixOf_append_self cacheDirChars _

theorem cachePathOf_inj {a b : String} (h : cachePathOf a = cachePathOf b) : a = b := by
  have hd : a.data = b.data := List.append_cancel_left h
  cases a; cases b; exact congrArg String.mk hd

/-- Reading the size of a freshly committed file returns the committed size. -/
theorem getsize_commit (c : List Entry) (fname : String) (size now : Nat) :
    getsize (c.filter (fun e => !(e.name == fname)) ++ [⟨fname, size, now⟩])
      (cachePathOf fname) = size := by
  induction c with
  | nil => simp [getsize, List.find?]
  | cons e rest ih =>
      by_cases h : e.name = fname
      · rw [List.filter_cons_of_neg (by simp [h])]
        exact ih
      · rw [List.filter_cons_of_pos (by simp [h])]
        have hne : (cachePathOf e.name == cachePathOf fname) = false := by
          rw [beq_eq_false_iff_ne]
          intro hc; exact h (cachePathOf_inj hc)
        simpa [getsize, List.find?_cons, hne] using ih

/-- Claim C4 counterexample: an oversized artifact is not discarded. A fresh
download that produces a file over the per-file ceiling ends in the failure
branch and the file is not sent, but the cleanup guard skips every path under
the cache directory, so the oversized artifact stays committed in the cache. -/
theorem oversize_artifact_retained :
    (handle_links urlTik [] (ToolRun.success (MAX_FILE_SIZE + 1)) 3 statsZero).outcome =
        Outcome.unexpected
    ∧ (⟨urlTik ++ mp4Ext, MAX_FILE_SIZE + 1, 3⟩ : Entry) ∈
        (handle_links urlTik [] (ToolRun.success (MAX_FILE_SIZE + 1)) 3 statsZero).cache
    ∧ (handle_links urlTik [] (ToolRun.success (MAX_FILE_SIZE + 1)) 3 statsZero).finallyRemoved =
        none := by
  decide

/-- Claim C4 amended: when the produced artifact exceeds the per-file ceiling,
the request fails (through the generic unexpected-error branch rather than a
distinct oversize kind) and the artifact is not sent to the caller, but the
artifact is not discarded: the committed file remains in the cache and the
request's cleanup deletes nothing. -/
theorem oversize_failure_not_returned_retained (text url : String) (cache : List Entry)
    (size now : Nat) (st : Stats)
    (hurl : extract_url text = some url)
    (hmiss : cache.find? (fun e => e.name == get_url_hash url ++ mp4Ext) = none)
    (hbig : size > MAX_FILE_SIZE) :
    (handle_links text cache (ToolRun.success size) now st).outcome = Outcome.unexpected
    ∧ (⟨get_url_hash url ++ mp4Ext, size, now⟩ : Entry) ∈
        (handle_links text cache (ToolRun.success size) now st).cache
    ∧ (handle_links text cache (ToolRun.success size) now st).finallyRemoved = none := by
  have hsz := getsize_commit (clean_cache_by_size cache) (get_url_hash url ++ mp4Ext) size now
  have hsw := cachePath_startswith (get_url_hash url ++ mp4Ext)
  refine ⟨?_, ?_, ?_⟩ <;>
    simp [handle_links, hurl, hmiss, download_video, finallyStep, hsz, hbig, hsw]

/-- Witness for C4 amended at a concrete oversized download. -/
theorem oversize_failure_witness :
    (handle_links urlTik [] (ToolRun.success (MAX_FILE_SIZE + 1)) 4 statsZero).outcome =
        Outcome.unexpected
    ∧ (⟨urlTik ++ mp4Ext, MAX_FILE_SIZE + 1, 4⟩ : Entry) ∈
        (handle_links urlTik [] (ToolRun.success (MAX_FILE_SIZE + 1)) 4 statsZero).cache :=
  ⟨(oversize_failure_not_returned_retained urlTik urlTik [] (MAX_FILE_SIZE + 1) 4 statsZero
      (by decide) (by decide) (by decide)).1,
   (oversize_failure_not_returned_retained urlTik urlTik [] (MAX_FILE_SIZE + 1) 4 statsZero
      (by decide) (by decide) (by decide)).2.1⟩

/-- A one-entry cache that the test url hits. -/
def hitCache : List Entry := [⟨urlTik ++ mp4Ext, 10, 5⟩]

/-- Claim C6 counterexample: a cache hit updates no last-access timestamp.
Handling a hit at time 999 leaves the cache state, including the entry's
timestamp of 5, exactly as it was; the hit is counted and no download runs,
but nothing records the access. -/
theorem cache_hit_no_timestamp_update :
    (handle_links urlTik hitCache ToolRun.timedOut 999 statsZero).cache = hitCache
    ∧ (∀ e ∈ (handle_links urlTik hitCache ToolRun.timedOut 999 statsZero).cache, e.mtime = 5)
    ∧ (999 : Nat) ≠ 5
    ∧ (handle_links urlTik hitCache ToolRun.timedOut 999 statsZero).invokedTool = false
    ∧ (handle_links urlTik hitCache ToolRun.timedOut 999 statsZero).stats.cache_hits = 1 := by
  decide

/-- Claim C6 amended: a request that finds its key in the cache is answered
from the cached entry without invoking the downloader and is counted as a
cache hit, but no last-access timestamp is updated: the cache state is left
exactly as it was before the request. -/
theorem cache_hit_returns_without_download (text url : String) (cache : List Entry)
    (tool : ToolRun) (now : Nat) (st : Stats) (entry : Entry)
    (hurl : extract_url text = some url)
    (hhit : cache.find? (fun e => e.name == get_url_hash url ++ mp4Ext) = some entry) :
    (handle_links text cache tool now st).cache = cache
    ∧ (handle_links text cache tool now st).invokedTool = false
    ∧ (handle_links text cache tool now st).stats.cache_hits = st.cache_hits + 1
    ∧ (handle_links text cache tool now st).finallyRemoved = none := by
  have hsw := cachePath_startswith (get_url_hash url ++ mp4Ext)
  by_cases h : entry.size > MAX_FILE_SIZE <;>
    refine ⟨?_, ?_, ?_, ?_⟩ <;>
      simp [handle_links, hurl, hhit, finallyStep, hsw, h]

/-- Witness for C6 amended at a concrete cache hit. -/
theorem cache_hit_witness :
    (handle_links urlTik hitCache ToolRun.timedOut 999 statsZero).cache = hitCache
    ∧ (handle_links urlTik hitCache ToolRun.timedOut 999 statsZero).invokedTool = false
    ∧ (handle_links urlTik hitCache ToolRun.timedOut 999 statsZero).stats.cache_hits =
        statsZero.cache_hits + 1 :=
  ⟨(cache_hit_returns_without_download urlTik urlTik hitCache ToolRun.timedOut 999 statsZero
      ⟨urlTik ++ mp4Ext, 10, 5⟩ (by decide) (by decide)).1,
   (cache_hit_returns_without_download urlTik urlTik hitCache ToolRun.timedOut 999 statsZero
      ⟨urlTik ++ mp4Ext, 10, 5⟩ (by decide) (by decide)).2.1,
   (cache_hit_returns_without_download urlTik urlTik hitCache ToolRun.timedOut 999 statsZero
      ⟨urlTik ++ mp4Ext, 10, 5⟩ (by decide) (by decide)).2.2.1⟩

/-- Claim C7 counterexample: the cache-hit branch emits two outcome events to
the stats sink: the hit counter and, after the cached file is sent, the
success counter as well. One hit request produced two events, not one. -/
theorem cache_hit_emits_two_events :
    (handle_links urlTik hitCache ToolRun.timedOut 999 statsZero).stats.cache_hits
        + (handle_links urlTik hitCache ToolRun.timedOut 999 statsZero).stats.successful_downloads
        + (handle_links urlTik hitCache ToolRun.timedOut 999 statsZero).stats.failed_downloads = 2
    ∧ (2 : Nat) ≠ 1 := by
  decide

/-- Claim C7 amended: every request whose text contains a supported link ends
in exactly one terminal event (one success or one failure), and a cache hit
additionally emits one hit event, so a hit request emits two events in total;
requests without a link emit none. -/
theorem one_terminal_event_per_request (text url : String) (cache : List Entry)
    (tool : ToolRun) (now : Nat) (st : Stats)
    (hurl : extract_url text = some url) :
    (handle_links text cache tool now st).stats.successful_downloads
        + (handle_links text cache tool now st).stats.failed_downloads
      = st.successful_downloads + st.failed_downloads + 1
    ∧ (handle_links text cache tool now st).stats.cache_hits
      = st.cache_hits +
          (if (cache.find? (fun e => e.name == get_url_hash url ++ mp4Ext)).isSome
           then 1 else 0) := by
  cases hfind : cache.find? (fun e => e.name == get_url_hash url ++ mp4Ext) with
  | some entry =>
      by_cases h : entry.size > MAX_FILE_SIZE <;>
        refine ⟨?_, ?_⟩ <;>
          simp [handle_links, hurl, hfind, finallyStep, h] <;> omega
  | none =>
      cases tool with
      | timedOut =>
          refine ⟨?_, ?_⟩ <;>
            (simp [handle_links, hurl, hfind, download_video, finallyStep]; try omega)
      | failed =>
          refine ⟨?_, ?_⟩ <;>
            (simp [handle_links, hurl, hfind, download_video, finallyStep]; try omega)
      | success size =>
          by_cases h : getsize ((clean_cache_by_size cache).filter
                (fun e => !(e.name == get_url_hash url ++ mp4Ext)) ++
                [⟨get_url_hash url ++ mp4Ext, size, now⟩])
              (cachePathOf (get_url_hash url ++ mp4Ext)) > MAX_FILE_SIZE <;>
            refine ⟨?_, ?_⟩ <;>
              simp [handle_links, hurl, hfind, download_video, finallyStep, h] <;> omega

/-- Witness for C7 amended at a concrete miss with a failed tool. -/
theorem one_terminal_event_witness :
    (handle_links urlTik [] ToolRun.failed 0 statsZero).stats.successful_downloads
        + (handle_links urlTik [] ToolRun.failed 0 statsZero).stats.failed_downloads
      = statsZero.successful_downloads + statsZero.failed_downloads + 1 :=
  (one_terminal_event_per_request urlTik urlTik [] ToolRun.failed 0 statsZero (by decide)).1

/-! Eviction failure semantics (claim C8). -/

/-- Survivors of an age pass are files of the input. -/
theorem mem_clean_old_files {fails : Entry → Bool} {ageLimit now : Nat} {e : Entry}
    {l : List Entry} (h : e ∈ clean_old_files fails ageLimit now l) : e ∈ l := by
  induction l with
  | nil => simp [clean_old_files] at h
  | cons f rest ih =>
      by_cases hf : fails f
      · rw [clean_old_files, if_pos hf] at h
        rcases List.mem_cons.mp h with h1 | h1
        · simp [h1]
        · exact List.mem_cons_of_mem f (ih h1)
      · by_cases ha : now - f.mtime > ageLimit
        · rw [clean_old_files, if_neg hf, if_pos ha] at h
          exact List.mem_cons_of_mem f (ih h)
        · rw [clean_old_files, if_neg hf, if_neg ha] at h
          rcases List.mem_cons.mp h with h1 | h1
          · simp [h1]
          · exact List.mem_cons_of_mem f (ih h1)

/-- A file that fails to delete refers to entries that fail by name. -/
def failsNameA : Entry → Bool := fun e => e.name == nameA

/-- Claim C8 counterexample: in the size pass a deletion failure aborts the
remainder of the pass. On an over-cap cache whose oldest entry fails to
delete, the code removes nothing at all (the exception leaves the while loop
and is only logged), whereas the skip-and-continue semantics the claim states
would keep going and evict the next, non-failing entry. -/
theorem size_pass_abort_on_failure :
    clean_cache_by_sizeF failsNameA cacheOverCap = cacheOverCap
    ∧ cleanCacheBySizeSpec failsNameA cacheOverCap = [⟨nameA, 2 ^ 30, 0⟩]
    ∧ totalSize cacheOverCap > maxCacheSizeBytes
    ∧ failsNameA ⟨nameB, 1, 1⟩ = false
    ∧ clean_cache_by_sizeF failsNameA cacheOverCap ≠
        cleanCacheBySizeSpec failsNameA cacheOverCap := by
  decide

/-- Claim C8 amended: in the age pass a failing deletion is logged and skipped
and the rest of the pass still runs: the pass distributes over the list, and
an expired entry whose own deletion does not fail is always removed, no matter
which other entries fail. In the size pass, by contrast, the first deletion
failure ends the pass: the failing entry and everything after it survive
untouched. -/
theorem age_skips_size_aborts (fails : Entry → Bool) (ageLimit now : Nat) :
    (∀ l1 l2, clean_old_files fails ageLimit now (l1 ++ l2) =
        clean_old_files fails ageLimit now l1 ++ clean_old_files fails ageLimit now l2)
    ∧ (∀ l f, f ∈ l → fails f = false → now - f.mtime > ageLimit →
        f ∉ clean_old_files fails ageLimit now l)
    ∧ (∀ e rest total, total > maxCacheSizeBytes → fails e = true →
        evictLoopF fails (e :: rest) total = e :: rest) := by
  refine ⟨?_, ?_, ?_⟩
  · intro l1 l2
    induction l1 with
    | nil => simp [clean_old_files]
    | cons f rest ih =>
        by_cases hf : fails f
        · simp [clean_old_files, hf, ih]
        · by_cases ha : now - f.mtime > ageLimit <;>
            simp [clean_old_files, hf, ha, ih]
  · intro l f hmem hfail hold
    induction l with
    | nil => simp [clean_old_files]
    | cons g rest ih =>
        rcases List.mem_cons.mp hmem with hg | hg
        · subst hg
          rw [clean_old_files, if_neg (by simp [hfail]), if_pos hold]
          intro hin
          exact absurd (mem_clean_old_files hin) (by
            intro hr
            exact (ih hr) hin)
        · have hnotin : f ∉ clean_old_files fails ageLimit now rest := ih hg
          by_cases hgf : fails g
          · rw [clean_old_files, if_pos hgf]
            intro hin
            rcases List.mem_cons.mp hin with h1 | h1
            · subst h1; exact absurd hfail (by simp [hgf])
            · exact hnotin h1
          · by_cases hga : now - g.mtime > ageLimit
            · rw [clean_old_files, if_neg hgf, if_pos hga]
              exact hnotin
            · rw [clean_old_files, if_neg hgf, if_neg hga]
              intro hin
              rcases List.mem_cons.mp hin with h1 | h1
              · subst h1; exact absurd hold hga
              · exact hnotin h1
  · intro e rest total htot hfail
    simp [evictLoopF, htot, hfail]

/-- Witness for C8 amended: an expired entry is removed by the age pass even
though no other entry is involved, and the size pass returns its input
untouched from the first failing entry on. -/
theorem age_skips_size_aborts_witness :
    (⟨nameA, 2 ^ 30, 0⟩ : Entry) ∉
        clean_old_files noFail CACHE_EXPIRE_DAYS 10 [⟨nameA, 2 ^ 30, 0⟩]
    ∧ evictLoopF failsNameA (⟨nameA, 2 ^ 30, 0⟩ :: [⟨nameB, 1, 1⟩]) (2 ^ 30 + 1) =
        ⟨nameA, 2 ^ 30, 0⟩ :: [⟨nameB, 1, 1⟩] :=
  ⟨(age_skips_size_aborts noFail CACHE_EXPIRE_DAYS 10).2.1 [⟨nameA, 2 ^ 30, 0⟩]
      ⟨nameA, 2 ^ 30, 0⟩ (by decide) (by decide) (by decide),
   (age_skips_size_aborts failsNameA CACHE_EXPIRE_DAYS 10).2.2 ⟨nameA, 2 ^ 30, 0⟩
      [⟨nameB, 1, 1⟩] (2 ^ 30 + 1) (by decide) (by decide)⟩

/-! URL scanning (claim C9). -/

/-- Search semantics of the scan: a returned match is the match attempt at the
leftmost start position that matches, and a none result means no start
position matches. -/
theorem scanText_first (cs : List Char) :
    (∀ m, scanText cs = some m →
        ∃ i, matchAt (cs.drop i) = some m ∧ ∀ j < i, matchAt (cs.drop j) = none)
    ∧ (scanText cs = none → ∀ i, matchAt (cs.drop i) = none) := by
  induction cs with
  | nil =>
      refine ⟨?_, ?_⟩
      · intro m hm; simp [scanText] at hm
      · intro _ i
        rw [List.drop_nil]
        decide
  | cons c rest ih =>
      cases hm : matchAt (c :: rest) with
      | some m0 =>
          have hstep : scanText (c :: rest) = some m0 := by rw [scanText, hm]
          refine ⟨?_, ?_⟩
          · intro m hsome
            rw [hstep] at hsome
            refine ⟨0, ?_, ?_⟩
            · rw [List.drop_zero, hm]
              exact hsome
            · intro j hj; exact absurd hj (Nat.not_lt_zero j)
          · intro hnone
            rw [hstep] at hnone
            exact absurd hnone (by simp)
      | none =>
          have hstep : scanText (c :: rest) = scanText rest := by rw [scanText, hm]
          refine ⟨?_, ?_⟩
          · intro m hsome
            rw [hstep] at hsome
            obtain ⟨i, hi, hj⟩ := ih.1 m hsome
            refine ⟨i + 1, by simpa using hi, ?_⟩
            intro j hjlt
            cases j with
            | zero => simpa using hm
            | succ j' => simpa using hj j' (Nat.lt_of_succ_lt_succ hjlt)
          · intro hnone i
            rw [hstep] at hnone
            cases i with
            | zero => simpa using hm
            | succ i' => simpa using ih.2 hnone i'

/-- Claim C9: the classifier returns the first substring matching a supported
link shape in left-to-right scan order; when no substring matches it returns
none rather than raising, and the handler treats that as a normal, expected
input: it answers, changes no state, and invokes no downloader. -/
theorem extract_url_first_match_or_not_found (text : String) (cache : List Entry)
    (tool : ToolRun) (now : Nat) (st : Stats) :
    (∀ m, scanText text.data = some m →
        extract_url text = some (String.mk m)
        ∧ ∃ i, matchAt (text.data.drop i) = some m
            ∧ ∀ j < i, matchAt (text.data.drop j) = none)
    ∧ (scanText text.data = none →
        extract_url text = none
        ∧ handle_links text cache tool now st =
            ⟨cache, st, Outcome.noLink, none, none, false⟩) := by
  refine ⟨?_, ?_⟩
  · intro m hm
    refine ⟨?_, (scanText_first text.data).1 m hm⟩
    simp [extract_url, hm]
  · intro hnone
    have hurl : extract_url text = none := by simp [extract_url, hnone]
    exact ⟨hurl, by simp [handle_links, hurl]⟩

/-- Witness for C9 at a text without any link. -/
theorem extract_url_witness :
    extract_url textNoUrl = none
    ∧ handle_links textNoUrl [] ToolRun.timedOut 0 statsZero =
        ⟨[], statsZero, Outcome.noLink, none, none, false⟩ :=
  (extract_url_first_match_or_not_found textNoUrl [] ToolRun.timedOut 0 statsZero).2 (by decide)

/-! Frame property of the request path (claim C10). -/

theorem finallyStep_none (c : List Entry) : finallyStep c none = (c, none) := rfl

/-- The finally guard never fires on a content-addressed cache path. -/
theorem finallyStep_cachePath (c : List Entry) (fname : String) :
    finallyStep c (some (cachePathOf fname)) = (c, none) := by
  simp [finallyStep, cachePath_startswith]

/-- Claim C10: every file path the handler produces lies inside the cache
directory, so the cleanup guard of the finally block never fires: the
per-request path deletes no cache file, and an entry of the prior cache that
is gone afterwards was removed by the size-eviction pre-check inside the
download, not by the request's cleanup. -/
theorem request_path_inside_cache_dir_no_delete (text : String) (cache : List Entry)
    (tool : ToolRun) (now : Nat) (st : Stats) :
    (∀ p, (handle_links text cache tool now st).filePath = some p →
        startswith p cacheDirChars = true)
    ∧ (handle_links text cache tool now st).finallyRemoved = none
    ∧ (∀ e ∈ cache, e ∉ (handle_links text cache tool now st).cache →
        e ∉ clean_cache_by_size cache) := by
  cases hurl : extract_url text with
  | none =>
      refine ⟨?_, ?_, ?_⟩
      · intro p hp; simp [handle_links, hurl] at hp
      · simp [handle_links, hurl]
      · intro e he hn
        simp [handle_links, hurl] at hn
        exact absurd he hn
  | some url =>
      cases hfind : cache.find? (fun e => e.name == get_url_hash url ++ mp4Ext) with
      | some entry =>
          have hcq : (handle_links text cache tool now st).cache = cache ∧
              (handle_links text cache tool now st).filePath =
                some (cachePathOf (get_url_hash url ++ mp4Ext)) ∧
              (handle_links text cache tool now st).finallyRemoved = none := by
            by_cases hbig : entry.size > MAX_FILE_SIZE <;>
              refine ⟨?_, ?_, ?_⟩ <;>
                simp [handle_links, hurl, hfind, hbig, finallyStep_cachePath]
          refine ⟨?_, hcq.2.2, ?_⟩
          · intro p hp
            rw [hcq.2.1] at hp
            have hpe : cachePathOf (get_url_hash url ++ mp4Ext) = p := by
              exact Option.some.inj hp
            rw [← hpe]
            exact cachePath_startswith _
          · intro e he hn
            rw [hcq.1] at hn
            exact absurd he hn
      | none =>
          cases tool with
          | timedOut =>
              refine ⟨?_, ?_, ?_⟩
              · intro p hp
                simp [handle_links, hurl, hfind, download_video, finallyStep_none] at hp
              · simp [handle_links, hurl, hfind, download_video, finallyStep_none]
              · intro e he hn
                simp [handle_links, hurl, hfind, download_video, finallyStep_none] at hn
                exact hn
          | failed =>
              refine ⟨?_, ?_, ?_⟩
              · intro p hp
                simp [handle_links, hurl, hfind, download_video, finallyStep_none] at hp
              · simp [handle_links, hurl, hfind, download_video, finallyStep_none]
              · intro e he hn
                simp [handle_links, hurl, hfind, download_video, finallyStep_none] at hn
                exact hn
          | success size =>
              have hcq : (handle_links text cache (ToolRun.success size) now st).cache =
                  (clean_cache_by_size cache).filter
                      (fun e => !(e.name == get_url_hash url ++ mp4Ext)) ++
                    [⟨get_url_hash url ++ mp4Ext, size, now⟩] ∧
                  (handle_links text cache (ToolRun.success size) now st).filePath =
                    some (cachePathOf (get_url_hash url ++ mp4Ext)) ∧
                  (handle_links text cache (ToolRun.success size) now st).finallyRemoved =
                    none := by
                by_cases hbig : getsize ((clean_cache_by_size cache).filter
                      (fun e => !(e.name == get_url_hash url ++ mp4Ext)) ++
                      [⟨get_url_hash url ++ mp4Ext, size, now⟩])
                    (cachePathOf (get_url_hash url ++ mp4Ext)) > MAX_FILE_SIZE <;>
                  refine ⟨?_, ?_, ?_⟩ <;>
                    simp [handle_links, hurl, hfind, download_video, hbig,
                      finallyStep_cachePath]
              refine ⟨?_, hcq.2.2, ?_⟩
              · intro p hp
                rw [hcq.2.1] at hp
                have hpe : cachePathOf (get_url_hash url ++ mp4Ext) = p :=
                  Option.some.inj hp
                rw [← hpe]
                exact cachePath_startswith _
              · intro e he hn
                rw [hcq.1] at hn
                intro hclean
                apply hn
                have hname : (e.name == get_url_hash url ++ mp4Ext) = false := by
                  have hne := List.find?_eq_none.mp hfind e he
                  simpa using hne
                exact List.mem_append_left _ (List.mem_filter.mpr ⟨hclean, by simp [hname]⟩)

/-- Witness for C10 at a concrete successful download. -/
theorem request_path_witness :
    (handle_links urlTik [] (ToolRun.success 7) 3 statsZero).finallyRemoved = none :=
  (request_path_inside_cache_dir_no_delete urlTik [] (ToolRun.success 7) 3 statsZero).2.1

/-! Concurrent requests for one key (claim C1). -/

def fnameK : String := "k"

/-- Claim C1 counterexample: two concurrent requests for the same key arrive
while no download is in flight; each handler passes the cache-existence check
and then suspends on its reply call before downloading, so in the round-robin
interleaving both observe a miss and both then invoke the external tool: two
tool invocations for one key, not one (both requests do receive the same
outcome). -/
theorem two_concurrent_misses_two_invocations :
    (runRound fnameK 9 1
        (runRound fnameK 9 1 ⟨[], 0⟩ [TPhase.start, TPhase.start]).1
        (runRound fnameK 9 1 ⟨[], 0⟩ [TPhase.start, TPhase.start]).2).1.invocations = 2
    ∧ (runRound fnameK 9 1
        (runRound fnameK 9 1 ⟨[], 0⟩ [TPhase.start, TPhase.start]).1
        (runRound fnameK 9 1 ⟨[], 0⟩ [TPhase.start, TPhase.start]).2).2 =
      [TPhase.done Outcome.sent, TPhase.done Outcome.sent]
    ∧ (2 : Nat) ≠ 1 := by
  decide

/-- A round of cache checks on an empty cache sends every coroutine to its
download step and changes nothing else. -/
theorem runRound_checks (fname : String) (size now : Nat) (N : Nat) (inv : Nat) :
    runRound fname size now ⟨[], inv⟩ (List.replicate N TPhase.start) =
      (⟨[], inv⟩, List.replicate N TPhase.toDownload) := by
  induction N with
  | zero => rfl
  | succ n ih => simp [List.replicate_succ, runRound, threadStep, ih]

/-- A round over coroutines that are all about to download performs one tool
invocation per coroutine. -/
theorem runRound_downloads (fname : String) (size now : Nat) (ts : List TPhase)
    (h : ∀ p ∈ ts, p = TPhase.toDownload) (s : CState) :
    (runRound fname size now s ts).1.invocations = s.invocations + ts.length
    ∧ (runRound fname size now s ts).2 =
        List.replicate ts.length (TPhase.done Outcome.sent) := by
  induction ts generalizing s with
  | nil => simp [runRound]
  | cons p rest ih =>
      have hp : p = TPhase.toDownload := h p (by simp)
      subst hp
      have hrest : ∀ q ∈ rest, q = TPhase.toDownload := fun q hq => h q (by simp [hq])
      obtain ⟨ih1, ih2⟩ := ih hrest
        ⟨(clean_cache_by_size s.cache).filter (fun e => !(e.name == fname)) ++
          [⟨fname, size, now⟩], s.invocations + 1⟩
      constructor
      · simp only [runRound, threadStep]
        rw [ih1]
        simp [List.length_cons]
        omega
      · simp only [runRound, threadStep]
        rw [ih2]
        simp [List.replicate_succ]

/-- Claim C1 amended: the code has no single-flight coordination and no
in-flight task table. Each request that observes a cache miss invokes the
external tool when next scheduled, so N concurrent requests for one key that
all pass the cache check before the first download completes perform N
external tool invocations, not one; all N requests still finish with
identical outcomes. -/
theorem no_single_flight_n_invocations (N : Nat) (fname : String) (size now : Nat) :
    (runRound fname size now
        (runRound fname size now ⟨[], 0⟩ (List.replicate N TPhase.start)).1
        (runRound fname size now ⟨[], 0⟩ (List.replicate N TPhase.start)).2).1.invocations = N
    ∧ (runRound fname size now
        (runRound fname size now ⟨[], 0⟩ (List.replicate N TPhase.start)).1
        (runRound fname size now ⟨[], 0⟩ (List.replicate N TPhase.start)).2).2 =
      List.replicate N (TPhase.done Outcome.sent) := by
  rw [runRound_checks]
  have hall : ∀ p ∈ List.replicate N TPhase.toDownload, p = TPhase.toDownload :=
    fun p hp => List.eq_of_mem_replicate hp
  obtain ⟨h1, h2⟩ := runRound_downloads fname size now
    (List.replicate N TPhase.toDownload) hall ⟨[], 0⟩
  rw [List.length_replicate] at h1 h2
  exact ⟨by simpa using h1, h2⟩

end Bot
